import Mathlib

/-!
Verification of the pagination core of the YouTube-Content-Length repository
(`src/wrapper.py`, class `Wrapper`).

The wrapper drives a paginated remote listing API.  Its generator
`_yield_all` repeatedly executes requests (`req.execute()`), yields every
item of each returned page, and advances via `list_next` until the
continuation is absent; an `HttpError` with status 404 is swallowed
(empty-stream termination) while every other `HttpError` is re-raised.
`yield_all` splits an oversized `id` parameter into slices of 50 and runs
`_yield_all` once per slice; `list_all` materializes `yield_all` into a
list.  `__init__` checks that the wrapped resource has callable `list` and
`list_next` members.

The embedding below models the remote endpoint as a function from the
execute-call index to a response (a page with its items, its
`pageInfo.totalResults` field and whether `list_next` will produce a
further request, or an HTTP error).  The generator is modelled as a
fuel-bounded loop that additionally threads the consumer's pull budget
(`Option Nat`; `none` means the consumer drains the stream), so that
laziness claims about which fetch calls are ever issued become statements
about the `calls` counter.
-/

/-- One response of the remote endpoint to `req.execute()`: either a page
(`items`, `pageInfo.totalResults`, and whether `list_next` yields another
request) or a raised `HttpError` with a status code. -/
inductive Response (α : Type) where
  | page (items : List α) (totalResults : Nat) (hasNext : Bool)
  | httpError (statusCode : Nat)
  deriving DecidableEq, Repr

/-- How a run of the generator ends, as observed by the consumer:
`done` = normal termination (`StopIteration`), `fail st` = an `HttpError`
with status `st` propagated, `stopped` = the consumer stopped pulling,
`fuelOut` = the modelling fuel ran out (never reached in the theorems). -/
inductive Outcome where
  | done
  | fail (statusCode : Nat)
  | stopped
  | fuelOut
  deriving DecidableEq, Repr

/-- Observable result of driving `_yield_all` for one batch: the yielded
items in order, the final outcome, the number of `req.execute()` calls
issued, the number of enabled `pbar.update()` progress events, and the
consumer's remaining pull budget. -/
structure RunResult (α : Type) where
  out : List α
  outcome : Outcome
  calls : Nat
  updates : Nat
  left : Option Nat
  deriving DecidableEq, Repr

/-- The loop of `Wrapper._yield_all` (src/wrapper.py lines 57-74).
`f` gives the endpoint's response to the `i`-th execute call of this
batch, `pb` is the `progress_bar` argument (a disabled `tqdm` emits no
events), `fuel` bounds the number of loop iterations, `budget` is the
number of items the consumer will still pull (`none` = unbounded).  The
consumer pulling nothing means the generator body never resumes, so a
zero budget returns before any execute call. -/
def yieldAllCore {α : Type} (f : Nat → Response α) (pb : Bool)
    (fuel i : Nat) (budget : Option Nat) : RunResult α :=
  if budget = some 0 then ⟨[], .stopped, 0, 0, budget⟩
  else
    match fuel with
    | 0 => ⟨[], .fuelOut, 0, 0, budget⟩
    | fuel' + 1 =>
      match f i with
      | .httpError st =>
        if st = 404 then ⟨[], .done, 1, 0, budget⟩
        else ⟨[], .fail st, 1, 0, budget⟩
      | .page items _tot hasNext =>
        let upd := if pb then 1 else 0
        match budget with
        | some b =>
          if b < items.length then ⟨items.take b, .stopped, 1, upd, some 0⟩
          else if hasNext then
            let r := yieldAllCore f pb fuel' (i + 1) (some (b - items.length))
            ⟨items ++ r.out, r.outcome, r.calls + 1, r.updates + upd, r.left⟩
          else ⟨items, .done, 1, upd, some (b - items.length)⟩
        | none =>
          if hasNext then
            let r := yieldAllCore f pb fuel' (i + 1) none
            ⟨items ++ r.out, r.outcome, r.calls + 1, r.updates + upd, r.left⟩
          else ⟨items, .done, 1, upd, none⟩


/-- Observable result of driving `Wrapper.yield_all`: yielded items, final
outcome, total execute calls, enabled page-level `pbar.update()` events,
enabled batch-level `trange` steps, and the remaining pull budget. -/
structure SplitRun (α : Type) where
  out : List α
  outcome : Outcome
  calls : Nat
  pageUpdates : Nat
  batchTicks : Nat
  left : Option Nat
  deriving DecidableEq, Repr

/-- The `for i in trange(...)` loop of `Wrapper.yield_all`
(src/wrapper.py lines 97-107): one `_yield_all` run per identifier slice,
in order.  `F b` is the endpoint's behaviour for the `b`-th slice.  The
inner `_yield_all` call on line 107 passes neither `progress_bar` nor
`desc`, so the inner run's progress bar is always disabled (`false`).
The consumer's remaining budget is threaded from one slice to the next;
at a zero budget the generator is never resumed, so the loop neither
ticks nor fetches. -/
def runBatches {α : Type} (F : Nat → Nat → Response α) (pb : Bool)
    (fuel : Nat) : Option Nat → List Nat → SplitRun α
  | budget, [] => ⟨[], .done, 0, 0, 0, budget⟩
  | budget, b :: rest =>
    if budget = some 0 then ⟨[], .stopped, 0, 0, 0, budget⟩
    else
      let tick := if pb then 1 else 0
      let r := yieldAllCore (F b) false fuel 0 budget
      match r.outcome with
      | .done =>
        let s := runBatches F pb fuel r.left rest
        ⟨r.out ++ s.out, s.outcome, r.calls + s.calls, r.updates + s.pageUpdates,
          tick + s.batchTicks, s.left⟩
      | o => ⟨r.out, o, r.calls, r.updates, tick, r.left⟩

/-- `Wrapper.yield_all` (src/wrapper.py lines 93-109), keyed by the length
of the `id` parameter.  When more than 50 identifiers are requested the
`id` list is split into slices of 50, i.e. one batch per element of
`range(0, len(ids), 50)` (which has `ceil(len(ids)/50)` elements);
otherwise `_yield_all` is invoked once, with `progress_bar` and `desc`
forwarded and the parameters untouched (batch index 0). -/
def yieldAllFull {α : Type} (F : Nat → Nat → Response α) (pb : Bool)
    (fuel : Nat) (budget : Option Nat) (idsLen : Nat) : SplitRun α :=
  if 50 < idsLen then
    runBatches F pb fuel budget (List.range ((idsLen + 49) / 50))
  else
    let r := yieldAllCore (F 0) pb fuel 0 budget
    ⟨r.out, r.outcome, r.calls, r.updates, 0, r.left⟩

/-- `Wrapper.list_all` (src/wrapper.py lines 111-128): `list(self.yield_all(**kwargs))`,
with `progress_bar` left at its default `False` and the generator drained
to exhaustion (unbounded pull budget). -/
def list_allModel {α : Type} (F : Nat → Nat → Response α) (fuel : Nat)
    (idsLen : Nat) : List α :=
  (yieldAllFull F false fuel none idsLen).out

/-- The identifier slices `ids[i : i + 50]` for `i in range(0, len(ids), 50)`
computed by `Wrapper.yield_all` when it splits. -/
def batchesOf {α : Type} (ids : List α) : List (List α) :=
  (List.range ((ids.length + 49) / 50)).map (fun b => (ids.drop (50 * b)).take 50)

/-- The batches of identifiers `Wrapper.yield_all` fetches with: the slices
when `len(ids) > 50`, the unsplit list otherwise. -/
def yieldBatches {α : Type} (ids : List α) : List (List α) :=
  if 50 < ids.length then batchesOf ids else [ids]


/-- A query-parameter value (the model only ever distinguishes the `id`
list and the numeric `maxResults`; everything else is opaque). -/
inductive Val where
  | str (s : String)
  | nat (n : Nat)
  | boolv (b : Bool)
  | ids (l : List String)
  deriving DecidableEq, Repr

/-- Python `dict` lookup on the association-list model of `kwargs`. -/
def lookupParam : List (String × Val) → String → Option Val
  | [], _ => none
  | p :: rest, k => if p.1 = k then some p.2 else lookupParam rest k

/-- Python `dict.update` with a single key: replace the value in place if
the key is present, append the pair otherwise. -/
def dictUpdate (d : List (String × Val)) (k : String) (v : Val) :
    List (String × Val) :=
  if d.any (fun p => p.1 = k) then
    d.map (fun p => if p.1 = k then (k, v) else p)
  else d ++ [(k, v)]

/-- The parameters `_yield_all` passes to `resource.list`
(src/wrapper.py line 55): the received `kwargs` after
`kwargs.update(maxResults=50)`. -/
def issuedParams (kwargs : List (String × Val)) : List (String × Val) :=
  dictUpdate kwargs "maxResults" (Val.nat 50)

/-- `kwargs.pop("id")`'s effect on the dict (src/wrapper.py line 96). -/
def popId (kwargs : List (String × Val)) : List (String × Val) :=
  kwargs.filter (fun p => ¬ p.1 = "id")

/-- The parameters a split-path fetch call uses for one identifier slice:
`self._yield_all(**kwargs, id=ids[i : i + 50])` (src/wrapper.py line 107)
builds the dict `kwargs` (with `id` popped) plus the slice under `id`,
and `_yield_all` then sets `maxResults`. -/
def batchCallParams (kwargs : List (String × Val)) (batch : List String) :
    List (String × Val) :=
  issuedParams (popId kwargs ++ [("id", Val.ids batch)])

/-- The capability shape of the wrapped `Resource` that
`Wrapper.__init__` probes: presence and callability of `list` and
`list_next`. -/
structure ResourceShape where
  hasList : Bool
  listCallable : Bool
  hasListNext : Bool
  listNextCallable : Bool
  deriving DecidableEq, Repr

/-- `Wrapper.__init__` (src/wrapper.py lines 25-44): raises `ValueError`
unless the resource has callable `list` and `list_next` members, and
otherwise just stores the resource.  No fetch happens here. -/
def wrapperInit (r : ResourceShape) : Except String ResourceShape :=
  if r.hasList && r.listCallable && r.hasListNext && r.listNextCallable then
    Except.ok r
  else
    Except.error "Resource must implement the `list` and`list_next` methods"

/-! Concrete endpoint behaviours used to instantiate the theorems. -/

/-- A two-page endpoint: page 0 holds items 10 and 11 and carries a
continuation token, page 1 holds item 12 and is the last page. -/
def exFetchTwoPages : Nat → Response Nat :=
  fun i => if i = 0 then .page [10, 11] 3 true else .page [12] 3 false

/-- The items of `exFetchTwoPages` by page index. -/
def exPages : Nat → List Nat :=
  fun i => if i = 0 then [10, 11] else [12]

/-- The `pageInfo.totalResults` field of every `exFetchTwoPages` page. -/
def exTots : Nat → Nat := fun _ => 3

/-- The continuation flags of `exFetchTwoPages`. -/
def exNexts : Nat → Bool := fun i => i == 0

/-- An endpoint whose second execute call raises an `HttpError` with
status 500, after a first successful page. -/
def exFetchThenError : Nat → Response Nat :=
  fun i => if i = 0 then .page [10, 11] 3 true else .httpError 500

/-- An endpoint whose second execute call raises an `HttpError` with
status 404, after a first successful page. -/
def exFetchThenNotFound : Nat → Response Nat :=
  fun i => if i = 0 then .page [10, 11] 3 true else .httpError 404

/-- An endpoint that always raises an `HttpError` with status 404. -/
def exFetchNotFound : Nat → Response Nat := fun _ => .httpError 404

/-- A batched endpoint: for every identifier slice `b` a single last page
holding the one item `b`. -/
def exBatchFetch : Nat → Nat → Response Nat := fun b _ => .page [b] 1 false

/-- A batched endpoint whose slices each answer with a two-item page that
carries a continuation token on the first call. -/
def exBatchFetchPages : Nat → Nat → Response Nat := fun b i => .page [b, b] 4 (i == 0)

/-- Caller-supplied query parameters with a single opaque field. -/
def exKwargs : List (String × Val) := [("part", Val.str "snippet")]

/-! Helper lemmas about the `_yield_all` loop. -/

theorem yieldAllCore_zeroBudget {α : Type} (f : Nat → Response α) (pb : Bool)
    (fuel i : Nat) : yieldAllCore f pb fuel i (some 0) = ⟨[], .stopped, 0, 0, some 0⟩ := by
  cases fuel <;> simp [yieldAllCore]

theorem yieldAllCore_left_none {α : Type} (f : Nat → Response α) (pb : Bool) :
    ∀ fuel i, (yieldAllCore f pb fuel i none).left = none := by
  intro fuel
  induction fuel with
  | zero => intro i; simp [yieldAllCore]
  | succ n ih =>
    intro i
    simp only [yieldAllCore]
    cases h : f i with
    | httpError st =>
      by_cases h4 : st = 404 <;> simp [h4]
    | page items tot hasNext =>
      cases hasNext <;> simp [ih]

theorem yieldAllCore_noBar_updates {α : Type} (f : Nat → Response α) :
    ∀ fuel i budget, (yieldAllCore f false fuel i budget).updates = 0 := by
  intro fuel
  induction fuel with
  | zero =>
    intro i budget
    by_cases hb : budget = some 0 <;> simp [yieldAllCore, hb]
  | succ n ih =>
    intro i budget
    by_cases hb : budget = some 0
    · simp [yieldAllCore, hb]
    · simp only [yieldAllCore, if_neg hb]
      cases h : f i with
      | httpError st =>
        by_cases h4 : st = 404 <;> simp [h4]
      | page items tot hasNext =>
        cases budget with
        | none => cases hasNext <;> simp [ih]
        | some b =>
          by_cases hlt : b < items.length
          · simp [hlt]
          · cases hasNext <;> simp [hlt, ih]

theorem yieldAllCore_step_next {α : Type} (f : Nat → Response α) (pb : Bool)
    (fuel i : Nat) (items : List α) (tot : Nat)
    (h : f i = .page items tot true) :
    yieldAllCore f pb (fuel + 1) i none =
      ⟨items ++ (yieldAllCore f pb fuel (i + 1) none).out,
        (yieldAllCore f pb fuel (i + 1) none).outcome,
        (yieldAllCore f pb fuel (i + 1) none).calls + 1,
        (yieldAllCore f pb fuel (i + 1) none).updates + (if pb then 1 else 0),
        (yieldAllCore f pb fuel (i + 1) none).left⟩ := by
  simp [yieldAllCore, h]

theorem yieldAllCore_step_last {α : Type} (f : Nat → Response α) (pb : Bool)
    (fuel i : Nat) (items : List α) (tot : Nat)
    (h : f i = .page items tot false) :
    yieldAllCore f pb (fuel + 1) i none =
      ⟨items, .done, 1, if pb then 1 else 0, none⟩ := by
  simp [yieldAllCore, h]

theorem yieldAllCore_step_notFound {α : Type} (f : Nat → Response α) (pb : Bool)
    (fuel i : Nat) (budget : Option Nat) (hb : budget ≠ some 0)
    (h : f i = .httpError 404) :
    yieldAllCore f pb (fuel + 1) i budget = ⟨[], .done, 1, 0, budget⟩ := by
  simp [yieldAllCore, h, hb]

theorem yieldAllCore_step_fail {α : Type} (f : Nat → Response α) (pb : Bool)
    (fuel i : Nat) (st : Nat) (budget : Option Nat) (hb : budget ≠ some 0)
    (hst : st ≠ 404) (h : f i = .httpError st) :
    yieldAllCore f pb (fuel + 1) i budget = ⟨[], .fail st, 1, 0, budget⟩ := by
  simp [yieldAllCore, h, hb, hst]

/-- Running the loop into `k` consecutive successful pages that all carry a
continuation token yields those pages' items first and then continues as
the same loop started at call `i + k` with `k` fewer units of fuel. -/
theorem yieldAllCore_goodPages {α : Type} (f : Nat → Response α) (pb : Bool)
    (pages : Nat → List α) (tots : Nat → Nat) :
    ∀ (k fuel i : Nat), k ≤ fuel →
    (∀ j, j < k → f (i + j) = .page (pages (i + j)) (tots (i + j)) true) →
    yieldAllCore f pb fuel i none =
      ⟨((List.range k).map (fun j => pages (i + j))).flatten ++
          (yieldAllCore f pb (fuel - k) (i + k) none).out,
        (yieldAllCore f pb (fuel - k) (i + k) none).outcome,
        (yieldAllCore f pb (fuel - k) (i + k) none).calls + k,
        (yieldAllCore f pb (fuel - k) (i + k) none).updates + (if pb then k else 0),
        (yieldAllCore f pb (fuel - k) (i + k) none).left⟩ := by
  intro k
  induction k with
  | zero =>
    intro fuel i _ _
    simp
  | succ m ih =>
    intro fuel i hk hgood
    cases fuel with
    | zero => omega
    | succ n =>
      have h0 : f i = Response.page (pages i) (tots i) true := by
        have h := hgood 0 (Nat.succ_pos m)
        simpa using h
      have hgood' : ∀ j, j < m → f (i + 1 + j) =
          Response.page (pages (i + 1 + j)) (tots (i + 1 + j)) true := by
        intro j hj
        have h := hgood (j + 1) (by omega)
        have e : i + (j + 1) = i + 1 + j := by omega
        rw [e] at h
        exact h
      have ihr := ih n (i + 1) (by omega) hgood'
      have eidx : i + (m + 1) = i + 1 + m := by omega
      have eshift : ∀ j : Nat, i + (j + 1) = i + 1 + j := by intro j; omega
      have efuel : n + 1 - (m + 1) = n - m := by omega
      have hfun : ((fun j => pages (i + j)) ∘ Nat.succ) = fun j => pages (i + 1 + j) := by
        funext j
        show pages (i + Nat.succ j) = pages (i + 1 + j)
        congr 1
        omega
      rw [yieldAllCore_step_next f pb n i (pages i) (tots i) h0, ihr, efuel, eidx]
      simp only [RunResult.mk.injEq]
      refine ⟨?_, trivial, by omega, ?_, trivial⟩
      · rw [List.range_succ_eq_map, List.map_cons, List.map_map, List.flatten_cons,
          List.append_assoc, hfun]
        simp
      · cases pb <;> simp [Nat.add_assoc]

/-- Specialization of `yieldAllCore_goodPages` to a loop started at call 0. -/
theorem yieldAllCore_prefix_run {α : Type} (f : Nat → Response α) (pb : Bool)
    (pages : Nat → List α) (tots : Nat → Nat) (k fuel : Nat) (hfuel : k ≤ fuel)
    (hgood : ∀ j, j < k → f j = .page (pages j) (tots j) true) :
    yieldAllCore f pb fuel 0 none =
      ⟨((List.range k).map pages).flatten ++ (yieldAllCore f pb (fuel - k) k none).out,
        (yieldAllCore f pb (fuel - k) k none).outcome,
        (yieldAllCore f pb (fuel - k) k none).calls + k,
        (yieldAllCore f pb (fuel - k) k none).updates + (if pb then k else 0),
        (yieldAllCore f pb (fuel - k) k none).left⟩ := by
  have h := yieldAllCore_goodPages f pb pages tots k fuel 0 hfuel
    (by intro j hj; simpa using hgood j hj)
  simpa using h

/-- One loop iteration on a successful page under a positive finite pull
budget. -/
theorem yieldAllCore_step_budget {α : Type} (f : Nat → Response α) (pb : Bool)
    (fuel i : Nat) (items : List α) (tot : Nat) (nx : Bool) (b : Nat)
    (hb : ¬ b = 0) (h : f i = .page items tot nx) :
    yieldAllCore f pb (fuel + 1) i (some b) =
      if b < items.length then
        ⟨items.take b, .stopped, 1, if pb then 1 else 0, some 0⟩
      else if nx then
        ⟨items ++ (yieldAllCore f pb fuel (i + 1) (some (b - items.length))).out,
          (yieldAllCore f pb fuel (i + 1) (some (b - items.length))).outcome,
          (yieldAllCore f pb fuel (i + 1) (some (b - items.length))).calls + 1,
          (yieldAllCore f pb fuel (i + 1) (some (b - items.length))).updates +
            (if pb then 1 else 0),
          (yieldAllCore f pb fuel (i + 1) (some (b - items.length))).left⟩
      else ⟨items, .done, 1, if pb then 1 else 0, some (b - items.length)⟩ := by
  simp [yieldAllCore, h, hb]

theorem range_map_sum_succ (g : Nat → Nat) (n : Nat) :
    ((List.range (n + 1)).map g).sum = g 0 + ((List.range n).map (fun m => g (m + 1))).sum := by
  rw [List.range_succ_eq_map, List.map_cons, List.sum_cons, List.map_map]
  rfl

/-- Pull-budget laziness: if the consumer pulls no more items than the
first `j + 1` pages hold, the loop never issues an execute call past page
`j + 1`, whatever the continuation flags and whatever lies beyond. -/
theorem yieldAllCore_calls_le {α : Type} (f : Nat → Response α) (pb : Bool)
    (pages : Nat → List α) (tots : Nat → Nat) (nexts : Nat → Bool) :
    ∀ (j fuel i b : Nat),
    (∀ m, m < j + 1 → f (i + m) = .page (pages (i + m)) (tots (i + m)) (nexts (i + m))) →
    b ≤ ((List.range (j + 1)).map (fun m => (pages (i + m)).length)).sum →
    (yieldAllCore f pb fuel i (some b)).calls ≤ j + 1 := by
  intro j
  induction j with
  | zero =>
    intro fuel i b hp hb
    cases fuel with
    | zero =>
      by_cases hb0 : b = 0 <;> simp [yieldAllCore, hb0]
    | succ n =>
      by_cases hb0 : b = 0
      · simp [yieldAllCore, hb0]
      · have h0 : f i = .page (pages i) (tots i) (nexts i) := by
          simpa using hp 0 (by omega)
        rw [yieldAllCore_step_budget f pb n i (pages i) (tots i) (nexts i) b hb0 h0]
        have hble : b ≤ (pages i).length := by simpa using hb
        by_cases hlt : b < (pages i).length
        · simp [hlt]
        · have hbe : b - (pages i).length = 0 := by omega
          cases hnx : nexts i
          · simp [hlt]
          · simp [hlt, hbe, yieldAllCore_zeroBudget]
  | succ j ih =>
    intro fuel i b hp hb
    cases fuel with
    | zero =>
      by_cases hb0 : b = 0 <;> simp [yieldAllCore, hb0]
    | succ n =>
      by_cases hb0 : b = 0
      · simp [yieldAllCore, hb0]
      · have h0 : f i = .page (pages i) (tots i) (nexts i) := by
          simpa using hp 0 (by omega)
        rw [yieldAllCore_step_budget f pb n i (pages i) (tots i) (nexts i) b hb0 h0]
        by_cases hlt : b < (pages i).length
        · simp [hlt]
        · have hp1 : ∀ m, m < j + 1 → f (i + 1 + m) =
              .page (pages (i + 1 + m)) (tots (i + 1 + m)) (nexts (i + 1 + m)) := by
            intro m hm
            have h := hp (m + 1) (by omega)
            have e : i + (m + 1) = i + 1 + m := by omega
            rw [e] at h
            exact h
          have hshift : ∀ m : Nat, i + (m + 1) = i + 1 + m := fun m => by omega
          have hsum := range_map_sum_succ (fun m => (pages (i + m)).length) (j + 1)
          have hb1 : b - (pages i).length ≤
              ((List.range (j + 1)).map (fun m => (pages (i + 1 + m)).length)).sum := by
            rw [hsum] at hb
            simp only [Nat.add_zero] at hb
            have heq : ((List.range (j + 1)).map (fun m => (pages (i + (m + 1))).length)).sum =
                ((List.range (j + 1)).map (fun m => (pages (i + 1 + m)).length)).sum := by
              have hfe : (fun m => (pages (i + (m + 1))).length) =
                  fun m => (pages (i + 1 + m)).length := by
                funext m
                rw [hshift m]
              rw [hfe]
            omega
          have hr := ih n (i + 1) (b - (pages i).length) hp1 hb1
          cases hnx : nexts i
          · simp [hlt]
          · simp only [hlt, if_false, if_true]
            simp
            omega

/-- `batchesOf` peels off the first slice of a non-empty identifier list. -/
theorem batchesOf_step {α : Type} (ids : List α) (h : 0 < ids.length) :
    batchesOf ids = ids.take 50 :: batchesOf (ids.drop 50) := by
  have hnb : (ids.length + 49) / 50 = ((ids.drop 50).length + 49) / 50 + 1 := by
    rw [List.length_drop]
    omega
  simp only [batchesOf]
  rw [hnb, List.range_succ_eq_map, List.map_cons, List.map_map]
  congr 1
  apply List.map_congr_left
  intro a _
  rw [Function.comp_apply, List.drop_drop]
  congr 2
  omega

theorem batchesOf_flatten_aux {α : Type} :
    ∀ (n : Nat) (ids : List α), ids.length ≤ n → (batchesOf ids).flatten = ids := by
  intro n
  induction n with
  | zero =>
    intro ids h
    have hnil : ids = [] := List.eq_nil_of_length_eq_zero (by omega)
    subst hnil
    simp [batchesOf]
  | succ m ih =>
    intro ids h
    rcases Nat.eq_zero_or_pos ids.length with h0 | h0
    · have hnil : ids = [] := List.eq_nil_of_length_eq_zero h0
      subst hnil
      simp [batchesOf]
    · rw [batchesOf_step ids h0, List.flatten_cons,
        ih (ids.drop 50) (by rw [List.length_drop]; omega)]
      exact List.take_append_drop 50 ids

/-- The slices of `Wrapper.yield_all` concatenate back to the original
identifier list. -/
theorem batchesOf_flatten {α : Type} (ids : List α) : (batchesOf ids).flatten = ids :=
  batchesOf_flatten_aux ids.length ids le_rfl

/-- A fully-consumed batched run (unbounded budget, every slice's fetch
loop terminating normally) concatenates the per-slice streams in slice
order, emits one enabled batch tick per slice, and no page-level events. -/
theorem runBatches_out_done {α : Type} (F : Nat → Nat → Response α) (pb : Bool)
    (fuel : Nat) :
    ∀ bs : List Nat,
    (∀ b, b ∈ bs → (yieldAllCore (F b) false fuel 0 none).outcome = .done) →
    runBatches F pb fuel none bs =
      ⟨(bs.map (fun b => (yieldAllCore (F b) false fuel 0 none).out)).flatten, .done,
        (bs.map (fun b => (yieldAllCore (F b) false fuel 0 none).calls)).sum, 0,
        if pb then bs.length else 0, none⟩ := by
  intro bs
  induction bs with
  | nil =>
    intro _
    cases pb <;> simp [runBatches]
  | cons b rest ih =>
    intro hdone
    have hb := hdone b (List.mem_cons_self b rest)
    have hleft := yieldAllCore_left_none (F b) false fuel 0
    have hupd := yieldAllCore_noBar_updates (F b) fuel 0 none
    have hrest : ∀ c, c ∈ rest → (yieldAllCore (F c) false fuel 0 none).outcome = .done :=
      fun c hc => hdone c (List.mem_cons_of_mem b hc)
    simp only [runBatches]
    rw [hleft]
    simp only [hb, ih hrest, hupd]
    cases pb <;> simp [Nat.add_comm]

/-- No page-level progress event is ever emitted by the batched loop: the
inner `_yield_all` calls run with their progress bar disabled. -/
theorem runBatches_pageUpdates {α : Type} (F : Nat → Nat → Response α) (pb : Bool)
    (fuel : Nat) : ∀ (bs : List Nat) (budget : Option Nat),
    (runBatches F pb fuel budget bs).pageUpdates = 0 := by
  intro bs
  induction bs with
  | nil => intro budget; rfl
  | cons b rest ih =>
    intro budget
    by_cases hb : budget = some 0
    · simp [runBatches, hb]
    · simp only [runBatches, if_neg hb]
      cases houtcome : (yieldAllCore (F b) false fuel 0 budget).outcome <;>
        simp [houtcome, yieldAllCore_noBar_updates, ih]

/-- Once a slice's run ends because the consumer stopped pulling, the
batched loop performs nothing for the remaining slices. -/
theorem runBatches_stopped {α : Type} (F : Nat → Nat → Response α) (pb : Bool)
    (fuel : Nat) (budget : Option Nat) (b : Nat) (rest : List Nat)
    (hb : budget ≠ some 0)
    (hst : (yieldAllCore (F b) false fuel 0 budget).outcome = .stopped) :
    runBatches F pb fuel budget (b :: rest) =
      ⟨(yieldAllCore (F b) false fuel 0 budget).out, .stopped,
        (yieldAllCore (F b) false fuel 0 budget).calls,
        (yieldAllCore (F b) false fuel 0 budget).updates,
        if pb then 1 else 0, (yieldAllCore (F b) false fuel 0 budget).left⟩ := by
  simp only [runBatches, if_neg hb]
  simp [hst]

/-! Helper lemmas about the query-parameter dictionary. -/

theorem lookupParam_map_ne (d : List (String × Val)) (k k' : String) (v : Val)
    (h : k' ≠ k) :
    lookupParam (d.map (fun p => if p.1 = k then (k, v) else p)) k' = lookupParam d k' := by
  induction d with
  | nil => rfl
  | cons p rest ih =>
    by_cases hp : p.1 = k
    · simp [lookupParam, hp, Ne.symm h, ih]
    · by_cases hq : p.1 = k'
      · simp [lookupParam, hp, hq, h]
      · simp [lookupParam, hp, hq, ih]

theorem lookupParam_append_ne (d : List (String × Val)) (k k' : String) (v : Val)
    (h : k' ≠ k) : lookupParam (d ++ [(k, v)]) k' = lookupParam d k' := by
  induction d with
  | nil => simp [lookupParam, Ne.symm h]
  | cons p rest ih =>
    by_cases hq : p.1 = k' <;> simp [lookupParam, hq, ih]

/-- `dict.update` leaves every other key's binding unchanged. -/
theorem lookupParam_dictUpdate_ne (d : List (String × Val)) (k k' : String) (v : Val)
    (h : k' ≠ k) : lookupParam (dictUpdate d k v) k' = lookupParam d k' := by
  rw [dictUpdate]
  split
  · exact lookupParam_map_ne d k k' v h
  · exact lookupParam_append_ne d k k' v h

theorem lookupParam_map_self (d : List (String × Val)) (k : String) (v : Val)
    (h : d.any (fun p => p.1 = k) = true) :
    lookupParam (d.map (fun p => if p.1 = k then (k, v) else p)) k = some v := by
  induction d with
  | nil => simp at h
  | cons p rest ih =>
    by_cases hp : p.1 = k
    · simp [lookupParam, hp]
    · have h' : rest.any (fun p => p.1 = k) = true := by simpa [hp] using h
      simp [lookupParam, hp, ih h']

theorem lookupParam_append_self (d : List (String × Val)) (k : String) (v : Val)
    (h : d.any (fun p => p.1 = k) = false) :
    lookupParam (d ++ [(k, v)]) k = some v := by
  induction d with
  | nil => simp [lookupParam]
  | cons p rest ih =>
    rw [List.any_cons, Bool.or_eq_false_iff] at h
    have hp : ¬ p.1 = k := by simpa using h.1
    simp [lookupParam, hp, ih h.2]

/-- `dict.update` binds the updated key to the new value. -/
theorem lookupParam_dictUpdate_self (d : List (String × Val)) (k : String) (v : Val) :
    lookupParam (dictUpdate d k v) k = some v := by
  rw [dictUpdate]
  split
  next h => exact lookupParam_map_self d k v h
  next h => exact lookupParam_append_self d k v (Bool.eq_false_iff.mpr h)

theorem popId_cons (p : String × Val) (rest : List (String × Val)) :
    popId (p :: rest) = if p.1 = "id" then popId rest else p :: popId rest := by
  simp only [popId, List.filter_cons]
  by_cases hp : p.1 = "id" <;> simp [hp]

/-- `kwargs.pop("id")` leaves every other key's binding unchanged. -/
theorem lookupParam_popId_ne (d : List (String × Val)) (k : String) (h : k ≠ "id") :
    lookupParam (popId d) k = lookupParam d k := by
  induction d with
  | nil => rfl
  | cons p rest ih =>
    rw [popId_cons]
    by_cases hp : p.1 = "id"
    · simp [hp, Ne.symm h, lookupParam, ih]
    · by_cases hq : p.1 = k
      · simp [hp, hq, h, lookupParam]
      · simp [hp, hq, lookupParam, ih]

theorem lookupParam_popId_id (d : List (String × Val)) :
    lookupParam (popId d) "id" = none := by
  induction d with
  | nil => rfl
  | cons p rest ih =>
    rw [popId_cons]
    by_cases hp : p.1 = "id"
    · simp [hp, ih]
    · simp [hp, lookupParam, ih]

theorem lookupParam_append_of_none (a b : List (String × Val)) (k : String)
    (h : lookupParam a k = none) : lookupParam (a ++ b) k = lookupParam b k := by
  induction a with
  | nil => rfl
  | cons p rest ih =>
    by_cases hp : p.1 = k
    · simp [lookupParam, hp] at h
    · simp only [lookupParam, hp] at h
      simp only [List.cons_append, lookupParam, hp, if_neg hp]
      exact ih h

/-! The claims. -/

/-- Claim C1: for every finite sequence of pages returned by the fetch
capability, when no identifier splitting is needed the stream produced by
`yield_all`/`_yield_all` equals exactly the concatenation of all pages'
item sequences in page order, and the fetch loop terminates immediately
after consuming the first page whose continuation token is absent,
issuing exactly `k + 1` execute calls and none beyond. -/
theorem C1_stream_equals_page_concat {α : Type} (f : Nat → Response α) (pb : Bool)
    (pages : Nat → List α) (tots : Nat → Nat) (k fuel : Nat)
    (hfuel : k + 1 ≤ fuel)
    (hgood : ∀ j, j < k → f j = .page (pages j) (tots j) true)
    (hlast : f k = .page (pages k) (tots k) false) :
    yieldAllCore f pb fuel 0 none =
      ⟨((List.range (k + 1)).map pages).flatten, .done, k + 1,
        if pb then k + 1 else 0, none⟩ ∧
    ∀ (F : Nat → Nat → Response α) (idsLen : Nat), idsLen ≤ 50 → F 0 = f →
      yieldAllFull F pb fuel none idsLen =
        ⟨((List.range (k + 1)).map pages).flatten, .done, k + 1,
          if pb then k + 1 else 0, 0, none⟩ := by
  have hcore : yieldAllCore f pb fuel 0 none =
      ⟨((List.range (k + 1)).map pages).flatten, .done, k + 1,
        if pb then k + 1 else 0, none⟩ := by
    obtain ⟨m, hm⟩ : ∃ m, fuel - k = m + 1 := ⟨fuel - k - 1, by omega⟩
    rw [yieldAllCore_prefix_run f pb pages tots k fuel (by omega) hgood, hm,
      yieldAllCore_step_last f pb m k (pages k) (tots k) hlast]
    simp only [RunResult.mk.injEq]
    refine ⟨?_, trivial, by omega, ?_, trivial⟩
    · simp [List.range_succ]
    · cases pb <;> simp [Nat.add_comm]
  refine ⟨hcore, ?_⟩
  intro F idsLen hlen hF0
  have h50 : ¬ 50 < idsLen := by omega
  simp [yieldAllFull, h50, hF0, hcore]

/-- Witness for C1: a concrete two-page endpoint. -/
theorem C1_stream_equals_page_concat_witness :
    yieldAllCore exFetchTwoPages false 3 0 none =
      ⟨((List.range 2).map exPages).flatten, .done, 2, 0, none⟩ ∧
    ∀ (F : Nat → Nat → Response Nat) (idsLen : Nat), idsLen ≤ 50 →
      F 0 = exFetchTwoPages →
      yieldAllFull F false 3 none idsLen =
        ⟨((List.range 2).map exPages).flatten, .done, 2, 0, 0, none⟩ :=
  C1_stream_equals_page_concat exFetchTwoPages false exPages exTots 1 3
    (by decide) (by decide) (by decide)

/-- Claim C3: a 404 on the first fetch call makes `_yield_all` yield zero
items and terminate normally, with no exception reaching the consumer. -/
theorem C3_first_404_is_empty {α : Type} (f : Nat → Response α) (pb : Bool)
    (fuel : Nat) (budget : Option Nat) (hfuel : 1 ≤ fuel) (hb : budget ≠ some 0)
    (h : f 0 = .httpError 404) :
    yieldAllCore f pb fuel 0 budget = ⟨[], .done, 1, 0, budget⟩ := by
  obtain ⟨m, hm⟩ : ∃ m, fuel = m + 1 := ⟨fuel - 1, by omega⟩
  rw [hm, yieldAllCore_step_notFound f pb m 0 budget hb h]

/-- Witness for C3: an endpoint that always raises 404. -/
theorem C3_first_404_is_empty_witness :
    yieldAllCore exFetchNotFound true 1 0 none = ⟨[], .done, 1, 0, none⟩ :=
  C3_first_404_is_empty exFetchNotFound true 1 none (by decide) (by decide)
    (by decide)

/-- Claim C4: a non-404 `HttpError` at call `k + 1`, after `k` successful
pages, lets the consumer observe exactly those pages' items followed by
the propagated failure; exactly `k + 1` execute calls happen and no
further item is yielded. -/
theorem C4_error_propagates_after_k_items {α : Type} (f : Nat → Response α)
    (pb : Bool) (pages : Nat → List α) (tots : Nat → Nat) (k fuel st : Nat)
    (hfuel : k + 1 ≤ fuel) (hst : st ≠ 404)
    (hgood : ∀ j, j < k → f j = .page (pages j) (tots j) true)
    (herr : f k = .httpError st) :
    yieldAllCore f pb fuel 0 none =
      ⟨((List.range k).map pages).flatten, .fail st, k + 1,
        if pb then k else 0, none⟩ := by
  obtain ⟨m, hm⟩ : ∃ m, fuel - k = m + 1 := ⟨fuel - k - 1, by omega⟩
  rw [yieldAllCore_prefix_run f pb pages tots k fuel (by omega) hgood, hm,
    yieldAllCore_step_fail f pb m k st none (by simp) hst herr]
  simp only [RunResult.mk.injEq]
  exact ⟨by simp, trivial, by omega, by simp, trivial⟩

/-- Witness for C4: one good page, then a 500. -/
theorem C4_error_propagates_after_k_items_witness :
    yieldAllCore exFetchThenError false 2 0 none =
      ⟨((List.range 1).map exPages).flatten, .fail 500, 2, 0, none⟩ :=
  C4_error_propagates_after_k_items exFetchThenError false exPages exTots 1 2 500
    (by decide) (by decide) (by decide) (by decide)

/-- Claim C10: the 404 recovery applies at any position, not only on the
first call: a 404 at call `k + 1` after `k` successful pages delivers
exactly those pages' items and then terminates normally, raising
nothing. -/
theorem C10_mid_stream_404_is_normal_end {α : Type} (f : Nat → Response α)
    (pb : Bool) (pages : Nat → List α) (tots : Nat → Nat) (k fuel : Nat)
    (hfuel : k + 1 ≤ fuel)
    (hgood : ∀ j, j < k → f j = .page (pages j) (tots j) true)
    (herr : f k = .httpError 404) :
    yieldAllCore f pb fuel 0 none =
      ⟨((List.range k).map pages).flatten, .done, k + 1,
        if pb then k else 0, none⟩ := by
  obtain ⟨m, hm⟩ : ∃ m, fuel - k = m + 1 := ⟨fuel - k - 1, by omega⟩
  rw [yieldAllCore_prefix_run f pb pages tots k fuel (by omega) hgood, hm,
    yieldAllCore_step_notFound f pb m k none (by simp) herr]
  simp only [RunResult.mk.injEq]
  exact ⟨by simp, trivial, by omega, by simp, trivial⟩

/-- Witness for C10: one good page, then a 404. -/
theorem C10_mid_stream_404_is_normal_end_witness :
    yieldAllCore exFetchThenNotFound false 2 0 none =
      ⟨((List.range 1).map exPages).flatten, .done, 2, 0, none⟩ :=
  C10_mid_stream_404_is_normal_end exFetchThenNotFound false exPages exTots 1 2
    (by decide) (by decide) (by decide)

/-- Claim C2: with at most 50 identifiers, `yield_all` keeps the list as
a single unsplit batch; with more, it produces `ceil(len(ids)/50)` slices
of size 50 (except possibly the last, of size at most 50), in original
order, non-overlapping and exhaustive — their concatenation reconstructs
`ids` — and the per-batch sub-streams are emitted in batch order. -/
theorem C2_batching_splits_ids {α : Type} (ids : List α) :
    (ids.length ≤ 50 → yieldBatches ids = [ids]) ∧
    (50 < ids.length →
      yieldBatches ids = batchesOf ids ∧
      (batchesOf ids).length = (ids.length + 49) / 50 ∧
      (batchesOf ids).flatten = ids ∧
      (∀ b, b + 1 < (ids.length + 49) / 50 →
        (batchesOf ids)[b]? = some ((ids.drop (50 * b)).take 50) ∧
        ((ids.drop (50 * b)).take 50).length = 50) ∧
      (∀ l, l ∈ batchesOf ids → l.length ≤ 50)) ∧
    (∀ (F : Nat → Nat → Response α) (pb : Bool) (fuel : Nat) (bs : List Nat),
      (∀ b, b ∈ bs → (yieldAllCore (F b) false fuel 0 none).outcome = .done) →
      (runBatches F pb fuel none bs).out =
        (bs.map (fun b => (yieldAllCore (F b) false fuel 0 none).out)).flatten) := by
  refine ⟨?_, ?_, ?_⟩
  · intro hle
    rw [yieldBatches, if_neg (by omega)]
  · intro hgt
    refine ⟨by rw [yieldBatches, if_pos hgt], by simp [batchesOf],
      batchesOf_flatten ids, ?_, ?_⟩
    · intro b hb
      have hblt : b < (ids.length + 49) / 50 := by omega
      constructor
      · simp [batchesOf, hblt]
      · simp only [List.length_take, List.length_drop]
        omega
    · intro l hl
      rw [batchesOf] at hl
      obtain ⟨b, _, rfl⟩ := List.mem_map.mp hl
      exact List.length_take_le _ _
  · intro F pb fuel bs hdone
    rw [runBatches_out_done F pb fuel bs hdone]

set_option maxRecDepth 8192 in
/-- Witness for C2 at 137 identifiers and a concrete batched endpoint. -/
theorem C2_batching_splits_ids_witness :
    yieldBatches (List.range 137) = batchesOf (List.range 137) ∧
    (batchesOf (List.range 137)).length = ((List.range 137).length + 49) / 50 ∧
    (batchesOf (List.range 137)).flatten = List.range 137 ∧
    (runBatches exBatchFetch false 5 none [0, 1, 2]).out =
      ([0, 1, 2].map (fun b => (yieldAllCore (exBatchFetch b) false 5 0 none).out)).flatten ∧
    yieldBatches (List.range 10) = [List.range 10] := by
  have h := C2_batching_splits_ids (List.range 137)
  have hs := h.2.1 (by simp)
  exact ⟨hs.1, hs.2.1, hs.2.2.1,
    (C2_batching_splits_ids ([] : List Nat)).2.2 exBatchFetch false 5 [0, 1, 2] (by decide),
    (C2_batching_splits_ids (List.range 10)).1 (by simp)⟩

/-- Claim C5 as stated is false at a concrete input: the core also sets
`maxResults` (to 50) on every fetch call, so a caller dict that lacks
`maxResults` — here `{"part": "snippet"}` — is changed at a key other
than `id`. -/
theorem C5_only_id_mutated_cex :
    "maxResults" ≠ "id" ∧
    lookupParam (issuedParams exKwargs) "maxResults" ≠
      lookupParam exKwargs "maxResults" := by
  decide

/-- Claim C5 amended: every fetch call uses exactly the caller-supplied
query parameters with no field added, removed or changed except `id`,
which is replaced by that call's identifier batch, and `maxResults`,
which `_yield_all` sets to 50. -/
theorem C5_frame_amended (kwargs : List (String × Val)) (batch : List String)
    (k : String) (hid : k ≠ "id") (hmax : k ≠ "maxResults") :
    lookupParam (issuedParams kwargs) k = lookupParam kwargs k ∧
    lookupParam (batchCallParams kwargs batch) k = lookupParam kwargs k ∧
    lookupParam (batchCallParams kwargs batch) "id" = some (Val.ids batch) ∧
    lookupParam (issuedParams kwargs) "maxResults" = some (Val.nat 50) ∧
    lookupParam (batchCallParams kwargs batch) "maxResults" = some (Val.nat 50) := by
  refine ⟨?_, ?_, ?_, ?_, ?_⟩
  · exact lookupParam_dictUpdate_ne kwargs "maxResults" k (Val.nat 50) hmax
  · rw [batchCallParams, issuedParams, lookupParam_dictUpdate_ne _ _ _ _ hmax,
      lookupParam_append_ne _ _ _ _ hid, lookupParam_popId_ne _ _ hid]
  · rw [batchCallParams, issuedParams, lookupParam_dictUpdate_ne _ _ _ _ (by decide),
      lookupParam_append_of_none _ _ _ (lookupParam_popId_id kwargs)]
    simp [lookupParam]
  · exact lookupParam_dictUpdate_self kwargs "maxResults" (Val.nat 50)
  · exact lookupParam_dictUpdate_self _ "maxResults" (Val.nat 50)

/-- Witness for the amended C5 at concrete parameters. -/
theorem C5_frame_amended_witness :
    lookupParam (issuedParams exKwargs) "part" = lookupParam exKwargs "part" ∧
    lookupParam (batchCallParams exKwargs ["a"]) "part" =
      lookupParam exKwargs "part" ∧
    lookupParam (batchCallParams exKwargs ["a"]) "id" = some (Val.ids ["a"]) ∧
    lookupParam (issuedParams exKwargs) "maxResults" = some (Val.nat 50) ∧
    lookupParam (batchCallParams exKwargs ["a"]) "maxResults" = some (Val.nat 50) :=
  C5_frame_amended exKwargs ["a"] "part" (by decide) (by decide)

/-- Claim C6 as stated is false at a concrete input: with 60 identifiers
and progress enabled, the run emits its two batch-level steps and fetches
two pages, yet not a single page-level progress event occurs, because the
split path invokes `_yield_all` without `progress_bar`. -/
theorem C6_nested_progress_cex :
    (yieldAllFull exBatchFetch true 3 none 60).batchTicks = 2 ∧
    (yieldAllFull exBatchFetch true 3 none 60).calls = 2 ∧
    ¬ 0 < (yieldAllFull exBatchFetch true 3 none 60).pageUpdates := by
  decide

/-- Claim C6 amended: when the identifier list exceeds the limit and
progress reporting is enabled, `yield_all` reports only batch-level
progress, sized to `ceil(len(ids)/50)` steps; no page-level progress
event is emitted within the batches since the inner `_yield_all` calls
run with their progress bar disabled. -/
theorem C6_progress_amended {α : Type} (F : Nat → Nat → Response α)
    (fuel idsLen : Nat) (budget : Option Nat) (hsplit : 50 < idsLen)
    (hdone : ∀ b, b ∈ List.range ((idsLen + 49) / 50) →
      (yieldAllCore (F b) false fuel 0 none).outcome = .done) :
    (yieldAllFull F true fuel none idsLen).batchTicks = (idsLen + 49) / 50 ∧
    (yieldAllFull F true fuel budget idsLen).pageUpdates = 0 := by
  constructor
  · rw [yieldAllFull, if_pos hsplit, runBatches_out_done F true fuel _ hdone]
    simp
  · rw [yieldAllFull, if_pos hsplit]
    exact runBatches_pageUpdates F true fuel _ budget

/-- Witness for the amended C6 at 60 identifiers. -/
theorem C6_progress_amended_witness :
    (yieldAllFull exBatchFetch true 3 none 60).batchTicks = (60 + 49) / 50 ∧
    (yieldAllFull exBatchFetch true 3 none 60).pageUpdates = 0 :=
  C6_progress_amended exBatchFetch 3 60 none (by decide) (by decide)

/-- Claim C7: the stream is lazy.  A consumer that pulls nothing causes
no execute call, at page level and at batch level; a consumer whose pull
budget fits within the first `j + 1` pages never causes an execute call
past page `j + 1`; and once a batch's run ends because the consumer
stopped pulling, the remaining batches are never fetched. -/
theorem C7_stream_is_lazy {α : Type} :
    (∀ (f : Nat → Response α) (pb : Bool) (fuel i : Nat),
      yieldAllCore f pb fuel i (some 0) = ⟨[], .stopped, 0, 0, some 0⟩) ∧
    (∀ (F : Nat → Nat → Response α) (pb : Bool) (fuel b : Nat) (rest : List Nat),
      runBatches F pb fuel (some 0) (b :: rest) = ⟨[], .stopped, 0, 0, 0, some 0⟩) ∧
    (∀ (f : Nat → Response α) (pb : Bool) (pages : Nat → List α)
      (tots : Nat → Nat) (nexts : Nat → Bool) (j fuel i b : Nat),
      (∀ m, m < j + 1 →
        f (i + m) = .page (pages (i + m)) (tots (i + m)) (nexts (i + m))) →
      b ≤ ((List.range (j + 1)).map (fun m => (pages (i + m)).length)).sum →
      (yieldAllCore f pb fuel i (some b)).calls ≤ j + 1) ∧
    (∀ (F : Nat → Nat → Response α) (pb : Bool) (fuel : Nat)
      (budget : Option Nat) (b : Nat) (rest : List Nat), budget ≠ some 0 →
      (yieldAllCore (F b) false fuel 0 budget).outcome = .stopped →
      (runBatches F pb fuel budget (b :: rest)).calls =
        (yieldAllCore (F b) false fuel 0 budget).calls ∧
      (runBatches F pb fuel budget (b :: rest)).out =
        (yieldAllCore (F b) false fuel 0 budget).out) := by
  refine ⟨?_, ?_, ?_, ?_⟩
  · intro f pb fuel i
    exact yieldAllCore_zeroBudget f pb fuel i
  · intro F pb fuel b rest
    simp [runBatches]
  · intro f pb pages tots nexts j fuel i b hp hb
    exact yieldAllCore_calls_le f pb pages tots nexts j fuel i b hp hb
  · intro F pb fuel budget b rest hb hst
    rw [runBatches_stopped F pb fuel budget b rest hb hst]
    exact ⟨rfl, rfl⟩

/-- Witness for C7 at concrete endpoints: a consumer that pulls nothing
fetches nothing, a two-item pull stops after the first page, and a batch
stopped mid-way blocks all later batches. -/
theorem C7_stream_is_lazy_witness :
    yieldAllCore exFetchTwoPages false 3 0 (some 0) = ⟨[], .stopped, 0, 0, some 0⟩ ∧
    runBatches exBatchFetch false 3 (some 0) [0, 1] = ⟨[], .stopped, 0, 0, 0, some 0⟩ ∧
    (yieldAllCore exFetchTwoPages false 9 0 (some 2)).calls ≤ 1 ∧
    (runBatches exBatchFetchPages false 3 (some 2) [0, 1]).calls =
      (yieldAllCore (exBatchFetchPages 0) false 3 0 (some 2)).calls := by
  have h := C7_stream_is_lazy (α := Nat)
  refine ⟨h.1 exFetchTwoPages false 3 0, h.2.1 exBatchFetch false 3 0 [1], ?_, ?_⟩
  · exact h.2.2.1 exFetchTwoPages false exPages exTots exNexts 0 9 0 2
      (by decide) (by decide)
  · exact (h.2.2.2 exBatchFetchPages false 3 (some 2) 0 [1] (by decide) (by decide)).1

/-- Claim C8: constructing the wrapper around a resource lacking a
callable `list` or a callable `list_next` member fails with the
`ValueError` synchronously in `__init__` (no fetch is modelled there at
all); a resource with both callable members constructs successfully. -/
theorem C8_init_checks_capabilities (r : ResourceShape) :
    ((r.hasList = false ∨ r.listCallable = false ∨ r.hasListNext = false ∨
        r.listNextCallable = false) →
      wrapperInit r =
        Except.error "Resource must implement the `list` and`list_next` methods") ∧
    (r.hasList = true → r.listCallable = true → r.hasListNext = true →
      r.listNextCallable = true → wrapperInit r = Except.ok r) := by
  obtain ⟨a, b, c, d⟩ := r
  constructor
  · intro h
    rcases h with h | h | h | h <;> subst h <;> simp [wrapperInit]
  · intro h1 h2 h3 h4
    subst h1
    subst h2
    subst h3
    subst h4
    rfl

/-- Witness for C8: a resource without `list`, and one with both
capabilities. -/
theorem C8_init_checks_capabilities_witness :
    wrapperInit ⟨false, true, true, true⟩ =
      Except.error "Resource must implement the `list` and`list_next` methods" ∧
    wrapperInit ⟨true, true, true, true⟩ = Except.ok ⟨true, true, true, true⟩ :=
  ⟨(C8_init_checks_capabilities ⟨false, true, true, true⟩).1 (Or.inl rfl),
    (C8_init_checks_capabilities ⟨true, true, true, true⟩).2 rfl rfl rfl rfl⟩

/-- Claim C9: `list_all` eagerly drains `yield_all` into a list — its
result is exactly the stream `yield_all` produces, element by element —
and it is deterministic: two invocations against the same fetch behaviour
return the identical ordered list. -/
theorem C9_list_all_deterministic {α : Type} (F G : Nat → Nat → Response α)
    (fuel idsLen : Nat) (hFG : ∀ b i, F b i = G b i) :
    list_allModel F fuel idsLen = (yieldAllFull F false fuel none idsLen).out ∧
    list_allModel F fuel idsLen = list_allModel G fuel idsLen := by
  constructor
  · rfl
  · have hFG2 : F = G := funext fun b => funext fun i => hFG b i
    rw [hFG2]

/-- Witness for C9 at a concrete batched endpoint. -/
theorem C9_list_all_deterministic_witness :
    list_allModel exBatchFetch 3 60 = (yieldAllFull exBatchFetch false 3 none 60).out ∧
    list_allModel exBatchFetch 3 60 = list_allModel exBatchFetch 3 60 :=
  C9_list_all_deterministic exBatchFetch exBatchFetch 3 60 (fun _ _ => rfl)
